import Mathlib

/-!
Verification of `Sources/TreeSitterSwiftGrammar/include/tree_sitter_swift.h`.

The repository consists of a single public C header declaring the grammar
entrypoint `tree_sitter_swift`.  We embed the header at two levels:

1. A textual/preprocessor level: the header's lines as data, a small model of
   the C preprocessor (`#ifndef` / `#ifdef` / `#define` / `#endif` with a
   stack of conditionals and a set of defined macros), and a translation of
   the surviving lines into C declarations with their linkage.  This follows
   the source file line by line.

2. A runtime level for the contract of the (externally implemented) function
   `tree_sitter_swift`, modelled from the spec, since only the declaration is
   present in the repository: a process state holding the single static
   grammar structure (lazily initialized) and caller-visible memory, the call
   as a state transformer, and a small-step execution machine for the call.
-/

/-- A C source line of the header that can survive preprocessing.
`cLinkOpen` / `cLinkClose` are the `extern "C" {` and `}` lines;
`typedefStruct tag tname` is `typedef struct tag tname;` (a forward
declaration of an incomplete structure type, with no fields — the type stays
opaque); `funDecl constQual retPtrTo name paramsVoid` is a declaration of a
function `name` returning a (const-qualified if `constQual`) pointer to
`retPtrTo`, with parameter list `(void)` (zero parameters) if `paramsVoid`. -/
inductive CLine where
  | cLinkOpen
  | cLinkClose
  | typedefStruct (tag tname : String)
  | funDecl (constQual : Bool) (retPtrTo : String) (name : String) (paramsVoid : Bool)
deriving DecidableEq, Repr

/-- A line of the header before preprocessing: either a preprocessor
directive or a C source line. -/
inductive PPLine where
  | ifndefD (m : String)
  | ifdefD (m : String)
  | defineD (m : String)
  | endifD
  | srcLine (c : CLine)
deriving DecidableEq, Repr

/-- Preprocessor state: the macros currently defined and the stack of open
conditionals (each entry records whether that conditional region is active). -/
structure PPState where
  macrosDefined : List String
  condStack : List Bool
deriving DecidableEq, Repr

/-- A line is emitted only when every enclosing conditional is active. -/
def lineActive : List Bool → Bool
  | [] => true
  | b :: rest => b && lineActive rest

/-- One preprocessor step: process a line, returning the new state and the
C line it expands to (if any). A conditional opened inside an inactive
region is itself inactive; `#define` has effect only in an active region. -/
def ppStep (st : PPState) : PPLine → PPState × Option CLine
  | .ifndefD m =>
      (⟨st.macrosDefined,
        (lineActive st.condStack && !(st.macrosDefined.contains m)) :: st.condStack⟩, none)
  | .ifdefD m =>
      (⟨st.macrosDefined,
        (lineActive st.condStack && st.macrosDefined.contains m) :: st.condStack⟩, none)
  | .defineD m =>
      (if lineActive st.condStack then ⟨m :: st.macrosDefined, st.condStack⟩ else st, none)
  | .endifD => (⟨st.macrosDefined, st.condStack.tail⟩, none)
  | .srcLine c => (st, if lineActive st.condStack then some c else none)

/-- Run the preprocessor over a list of lines. -/
def ppRun (st : PPState) : List PPLine → PPState × List CLine
  | [] => (st, [])
  | l :: ls =>
      let s1 := ppStep st l
      let rest := ppRun s1.1 ls
      (rest.1, s1.2.toList ++ rest.2)

/-- The header `tree_sitter_swift.h`, line by line:
```
#ifndef TREE_SITTER_SWIFT_H_
#define TREE_SITTER_SWIFT_H_
#ifdef __cplusplus
extern "C" {
#endif
typedef struct TSLanguage TSLanguage;
const TSLanguage *tree_sitter_swift(void);
#ifdef __cplusplus
}
#endif
#endif
``` -/
def tree_sitter_swift_h : List PPLine :=
  [ .ifndefD "TREE_SITTER_SWIFT_H_",
    .defineD "TREE_SITTER_SWIFT_H_",
    .ifdefD "__cplusplus",
    .srcLine .cLinkOpen,
    .endifD,
    .srcLine (.typedefStruct "TSLanguage" "TSLanguage"),
    .srcLine (.funDecl true "TSLanguage" "tree_sitter_swift" true),
    .ifdefD "__cplusplus",
    .srcLine .cLinkClose,
    .endifD,
    .endifD ]

/-- A C declaration as the compiler sees it after preprocessing.
`cLinkage` records whether the function has C linkage (in C mode every
top-level function does; in C++ mode only those inside `extern "C"`). -/
inductive CDecl where
  | typedefStruct (tag tname : String)
  | funDecl (constQual : Bool) (retPtrTo : String) (name : String)
      (paramsVoid : Bool) (cLinkage : Bool)
deriving DecidableEq, Repr

/-- Translate the preprocessed lines into declarations, tracking the nesting
depth of `extern "C"` blocks.  `cpp` is true when compiling as C++. -/
def declsOfAux (cpp : Bool) : Nat → List CLine → List CDecl
  | _, [] => []
  | d, .cLinkOpen :: rest => declsOfAux cpp (d + 1) rest
  | d, .cLinkClose :: rest => declsOfAux cpp (d - 1) rest
  | d, .typedefStruct t n :: rest => .typedefStruct t n :: declsOfAux cpp d rest
  | d, .funDecl c r n p :: rest =>
      .funDecl c r n p (!cpp || d != 0) :: declsOfAux cpp d rest

/-- The initial preprocessor state of a translation unit: in C++ mode the
macro `__cplusplus` is predefined, in C mode it is not. -/
def initPPState (cpp : Bool) : PPState :=
  ⟨if cpp then ["__cplusplus"] else [], []⟩

/-- The declarations a translation unit sees after including the header once,
compiled as C (`cpp = false`) or as C++ (`cpp = true`). -/
def compileHeader (cpp : Bool) : List CDecl :=
  declsOfAux cpp 0 (ppRun (initPPState cpp) tree_sitter_swift_h).2

/-- Itanium-style C++ name mangling for a zero-argument free function;
only used to witness that a non-C-linkage declaration would emit a
different symbol. -/
def mangleCpp (n : String) : String := "_Z" ++ toString n.length ++ n ++ "v"

/-- The linker symbol a declaration contributes: a typedef contributes none;
a function contributes its plain name under C linkage and the mangled name
otherwise. -/
def emittedSymbol : CDecl → Option String
  | .typedefStruct _ _ => none
  | .funDecl _ _ n _ cl => some (if cl then n else mangleCpp n)

/-- All linker symbols declared by a list of declarations. -/
def emittedSymbols (ds : List CDecl) : List String := ds.filterMap emittedSymbol

/-- A declaration with its linkage flag normalized, to compare the C and C++
views of the header up to linkage. -/
def eraseLinkage : CDecl → CDecl
  | .typedefStruct t n => .typedefStruct t n
  | .funDecl c r n p _ => .funDecl c r n p true

/-- The linkage flags of the function declarations in a list. -/
def funLinkages (ds : List CDecl) : List Bool :=
  ds.filterMap fun d =>
    match d with
    | .funDecl _ _ _ _ cl => some cl
    | _ => none

/-- The const-qualification flags of the function declarations in a list. -/
def funConstQuals (ds : List CDecl) : List Bool :=
  ds.filterMap fun d =>
    match d with
    | .funDecl c _ _ _ _ => some c
    | _ => none

/-- C1: including the header (in either compilation mode) yields exactly two
declarations — the opaque forward declaration `typedef struct TSLanguage
TSLanguage;` and the function `tree_sitter_swift` with zero parameters
returning a const pointer to `TSLanguage` — and exactly one linker symbol,
`tree_sitter_swift`; there is no other declared symbol, flag or state. -/
theorem header_declares_single_entrypoint :
    compileHeader false =
      [ CDecl.typedefStruct "TSLanguage" "TSLanguage",
        CDecl.funDecl true "TSLanguage" "tree_sitter_swift" true true ] ∧
    compileHeader true =
      [ CDecl.typedefStruct "TSLanguage" "TSLanguage",
        CDecl.funDecl true "TSLanguage" "tree_sitter_swift" true true ] ∧
    emittedSymbols (compileHeader false) = ["tree_sitter_swift"] ∧
    emittedSymbols (compileHeader true) = ["tree_sitter_swift"] := by
  refine ⟨?_, ?_, ?_, ?_⟩ <;> rfl

/-- C4: the header's declarations are identical in C and C++ mode up to the
linkage annotation; in both modes the emitted symbol list is exactly the
unmangled `tree_sitter_swift` (in C++ mode because the declaration sits
inside the `extern "C"` block, so its linkage flag is C linkage). -/
theorem header_c_cpp_equivalent :
    (compileHeader true).map eraseLinkage = (compileHeader false).map eraseLinkage ∧
    emittedSymbols (compileHeader true) = emittedSymbols (compileHeader false) ∧
    emittedSymbols (compileHeader true) = ["tree_sitter_swift"] ∧
    funLinkages (compileHeader true) = [true] ∧
    funLinkages (compileHeader false) = [true] := by
  refine ⟨?_, ?_, ?_, ?_, ?_⟩ <;> rfl

/-- Running the preprocessor over concatenated input threads the state. -/
theorem ppRun_append (ls1 ls2 : List PPLine) (st : PPState) :
    ppRun st (ls1 ++ ls2) =
      ((ppRun (ppRun st ls1).1 ls2).1,
       (ppRun st ls1).2 ++ (ppRun (ppRun st ls1).1 ls2).2) := by
  induction ls1 generalizing st with
  | nil => simp [ppRun]
  | cons l ls ih => simp [ppRun, ih]

/-- Once the guard macro is defined, re-including the header is a no-op: the
state is unchanged and no C line is emitted. -/
theorem ppRun_header_guarded (st : PPState)
    (h : st.macrosDefined.contains "TREE_SITTER_SWIFT_H_" = true) :
    ppRun st tree_sitter_swift_h = (st, []) := by
  cases st with
  | mk ms cs =>
      have hm : "TREE_SITTER_SWIFT_H_" ∈ ms := by
        simpa using List.mem_of_elem_eq_true h
      simp [tree_sitter_swift_h, ppRun, ppStep, lineActive, hm]

/-- After one inclusion from a fresh translation unit (either mode), the
guard macro is defined. -/
theorem header_defines_guard (cpp : Bool) :
    ((ppRun (initPPState cpp) tree_sitter_swift_h).1).macrosDefined.contains
      "TREE_SITTER_SWIFT_H_" = true := by
  cases cpp <;> rfl

/-- Any number of further inclusions after the guard is defined emit
nothing and leave the state unchanged. -/
theorem ppRun_header_replicate_guarded (n : Nat) (st : PPState)
    (h : st.macrosDefined.contains "TREE_SITTER_SWIFT_H_" = true) :
    ppRun st (List.replicate n tree_sitter_swift_h).flatten = (st, []) := by
  induction n generalizing st with
  | zero => rfl
  | succ k ih =>
      rw [List.replicate_succ, List.flatten_cons, ppRun_append,
        ppRun_header_guarded st h]
      simp [ih st h]

/-- C5: including the header is idempotent.  Once the guard macro
`TREE_SITTER_SWIFT_H_` is defined, a further inclusion expands to nothing
and changes no preprocessor state; hence including the header `n + 1` times
in a translation unit (in either compilation mode) is exactly the same as
including it once, so no redefinition can arise. -/
theorem header_include_guard (cpp : Bool) (n : Nat) (st : PPState)
    (h : st.macrosDefined.contains "TREE_SITTER_SWIFT_H_" = true) :
    ppRun st tree_sitter_swift_h = (st, []) ∧
    ppRun (initPPState cpp) (List.replicate (n + 1) tree_sitter_swift_h).flatten =
      ppRun (initPPState cpp) tree_sitter_swift_h := by
  refine ⟨ppRun_header_guarded st h, ?_⟩
  rw [List.replicate_succ, List.flatten_cons, ppRun_append,
    ppRun_header_replicate_guarded n _ (header_defines_guard cpp)]
  simp

/-- Witness for C5: a concrete second inclusion, in C mode, with the guard
already defined, expands to nothing, and a double inclusion equals a single
one. -/
theorem header_include_guard_witness :
    ppRun ⟨["TREE_SITTER_SWIFT_H_"], []⟩ tree_sitter_swift_h =
      (⟨["TREE_SITTER_SWIFT_H_"], []⟩, []) ∧
    ppRun (initPPState false) (List.replicate 2 tree_sitter_swift_h).flatten =
      ppRun (initPPState false) tree_sitter_swift_h :=
  header_include_guard false 1 ⟨["TREE_SITTER_SWIFT_H_"], []⟩ (by decide)

/-- Modelled from the spec: the opaque language-description structure
`TSLanguage`.  Its internal attributes (grammar rules, state tables, token
definitions) are unspecified by the repository, so it is modelled as a record
with a single abstract tag; callers only ever pass it by reference. -/
structure TSLanguage where
  abiTag : Nat
deriving DecidableEq, Repr

/-- Addresses, with 0 playing the role of the null pointer. -/
abbrev Ptr := Nat

/-- The null pointer. -/
def nullPtr : Ptr := 0

/-- Modelled from the spec: the single static Swift grammar definition the
implementation of `tree_sitter_swift` exposes. -/
def swiftLanguage : TSLanguage := ⟨0⟩

/-- Modelled from the spec: the fixed (nonzero) static address at which the
grammar structure lives for the lifetime of the process. -/
def swiftLanguageAddr : Ptr := 1

/-- Modelled from the spec: the caller-observable process state.
`languageSlot` is the storage for the static grammar structure (`none`
before its one-time lazy initialization); `callerMem` stands for all other
caller-visible state, which the call must not touch. -/
structure ProcState where
  languageSlot : Option TSLanguage
  callerMem : List Nat
deriving DecidableEq, Repr

/-- Modelled from the spec: the implementation of `tree_sitter_swift`, which
is external to the repository (only its declaration is in `src/`).  Per the
spec it returns a reference to the single static grammar structure, lazily
initializing it on first access, and does nothing else. -/
def tree_sitter_swift (s : ProcState) : Ptr × ProcState :=
  match s.languageSlot with
  | some _ => (swiftLanguageAddr, s)
  | none => (swiftLanguageAddr, { s with languageSlot := some swiftLanguage })

/-- Dereference a pointer in a process state: only the static grammar
address is mapped, to the grammar slot's contents. -/
def deref (s : ProcState) (p : Ptr) : Option TSLanguage :=
  if p = swiftLanguageAddr then s.languageSlot else none

/-- The process state after `n` successive calls to `tree_sitter_swift`. -/
def callN : Nat → ProcState → ProcState
  | 0, s => s
  | n + 1, s => callN n (tree_sitter_swift s).2

/-- C2: `tree_sitter_swift` is pure and idempotent.  Two successive calls
return equal references to the same underlying structure and the second call
leaves the state unchanged; moreover any two calls in the same process, from
any two states, return equal references. -/
theorem tree_sitter_swift_idempotent (s : ProcState) :
    (tree_sitter_swift ((tree_sitter_swift s).2)).1 = (tree_sitter_swift s).1 ∧
    (tree_sitter_swift ((tree_sitter_swift s).2)).2 = (tree_sitter_swift s).2 ∧
    deref (tree_sitter_swift ((tree_sitter_swift s).2)).2
        (tree_sitter_swift ((tree_sitter_swift s).2)).1 =
      deref (tree_sitter_swift s).2 (tree_sitter_swift s).1 ∧
    ∀ t : ProcState, (tree_sitter_swift t).1 = (tree_sitter_swift s).1 := by
  cases s with
  | mk slot mem =>
      cases slot <;>
        exact ⟨rfl, rfl, rfl, fun t => by
          cases t with
          | mk slot2 mem2 => cases slot2 <;> rfl⟩

/-- Witness for C2 at a concrete fresh process state. -/
theorem tree_sitter_swift_idempotent_witness :
    (tree_sitter_swift ((tree_sitter_swift ⟨none, [7]⟩).2)).1 =
      (tree_sitter_swift ⟨none, [7]⟩).1 :=
  (tree_sitter_swift_idempotent ⟨none, [7]⟩).1

/-- C3: every call to `tree_sitter_swift` (against the conforming modelled
implementation) returns a non-null reference, and that reference is valid:
in the post-state it dereferences to an allocated grammar structure, never
an absent value. -/
theorem tree_sitter_swift_nonnull (s : ProcState) :
    (tree_sitter_swift s).1 ≠ nullPtr ∧
    (deref (tree_sitter_swift s).2 (tree_sitter_swift s).1).isSome = true := by
  cases s with
  | mk slot mem => cases slot <;> exact ⟨Nat.one_ne_zero, rfl⟩

/-- Witness for C3 at a concrete fresh process state. -/
theorem tree_sitter_swift_nonnull_witness :
    (tree_sitter_swift ⟨none, []⟩).1 ≠ nullPtr :=
  (tree_sitter_swift_nonnull ⟨none, []⟩).1

/-- C6: the structure reached through the returned reference is never
mutated or freed through this interface.  If the grammar slot holds a
structure `g`, then after any number of further calls it still holds exactly
`g` (program-lifetime validity, no mutation, no deallocation); and at the
declaration level, the header's sole function returns a const-qualified
pointer in both compilation modes, so the interface offers no mutation. -/
theorem tree_sitter_swift_const_nonowning (s : ProcState) (g : TSLanguage) (n : Nat)
    (h : s.languageSlot = some g) :
    (tree_sitter_swift s).2.languageSlot = some g ∧
    (callN n s).languageSlot = some g ∧
    funConstQuals (compileHeader false) = [true] ∧
    funConstQuals (compileHeader true) = [true] := by
  have step : ∀ t : ProcState, t.languageSlot = some g →
      (tree_sitter_swift t).2.languageSlot = some g := by
    intro t ht
    cases t with
    | mk slot mem => cases slot <;> simp_all [tree_sitter_swift]
  refine ⟨step s h, ?_, rfl, rfl⟩
  induction n generalizing s with
  | zero => exact h
  | succ k ih => exact ih _ (step s h)

/-- Witness for C6: a process state whose slot already holds the static
grammar structure keeps it across a call and across three calls. -/
theorem tree_sitter_swift_const_nonowning_witness :
    ProcState.languageSlot ⟨some swiftLanguage, [0]⟩ = some swiftLanguage ∧
    (tree_sitter_swift ⟨some swiftLanguage, [0]⟩).2.languageSlot = some swiftLanguage ∧
    (callN 3 ⟨some swiftLanguage, [0]⟩).languageSlot = some swiftLanguage :=
  ⟨rfl,
    (tree_sitter_swift_const_nonowning ⟨some swiftLanguage, [0]⟩ swiftLanguage 3 rfl).1,
    (tree_sitter_swift_const_nonowning ⟨some swiftLanguage, [0]⟩ swiftLanguage 3 rfl).2.1⟩

/-- C7: a call has no side effect observable to the caller: caller-visible
memory is untouched, and the whole state is either unchanged or (on first
access only, when the slot is empty) changed exactly by the one-time lazy
initialization of the grammar slot. -/
theorem tree_sitter_swift_frame (s : ProcState) :
    (tree_sitter_swift s).2.callerMem = s.callerMem ∧
    ((tree_sitter_swift s).2 = s ∨
      (s.languageSlot = none ∧
        (tree_sitter_swift s).2 = { s with languageSlot := some swiftLanguage })) := by
  cases s with
  | mk slot mem =>
      cases slot with
      | none => exact ⟨rfl, Or.inr ⟨rfl, rfl⟩⟩
      | some g => exact ⟨rfl, Or.inl rfl⟩

/-- Witness for C7 at a concrete initialized process state. -/
theorem tree_sitter_swift_frame_witness :
    (tree_sitter_swift ⟨some swiftLanguage, [1, 2]⟩).2.callerMem = [1, 2] :=
  (tree_sitter_swift_frame ⟨some swiftLanguage, [1, 2]⟩).1

/-- Modelled from the spec: the control phases of one synchronous call to
`tree_sitter_swift`.  `suspended` and `raisedError` exist so that "never
suspends" and "no runtime error" are statable; a conforming execution never
reaches them. -/
inductive CallPhase where
  | start
  | lazyStartup
  | done (r : Ptr)
  | suspended
  | raisedError (msg : String)
deriving DecidableEq, Repr

/-- Modelled from the spec: one step of the execution of a call.  From
`start` the call either returns the reference at once or performs the
one-time lazy initialization and then returns; `done` is absorbing. -/
def callStep : CallPhase × ProcState → CallPhase × ProcState
  | (.start, s) =>
      match s.languageSlot with
      | some _ => (.done swiftLanguageAddr, s)
      | none => (.lazyStartup, s)
  | (.lazyStartup, s) => (.done swiftLanguageAddr, { s with languageSlot := some swiftLanguage })
  | (.done r, s) => (.done r, s)
  | (.suspended, s) => (.suspended, s)
  | (.raisedError m, s) => (.raisedError m, s)

/-- Phases of a normally progressing call (neither suspended nor errored). -/
def normalPhase : CallPhase → Bool
  | .suspended => false
  | .raisedError _ => false
  | _ => true

/-- A step preserves normality of the phase. -/
theorem callStep_normal (p : CallPhase) (s : ProcState)
    (h : normalPhase p = true) : normalPhase (callStep (p, s)).1 = true := by
  cases p with
  | start => cases hs : s.languageSlot <;> simp [callStep, hs, normalPhase]
  | lazyStartup => rfl
  | done r => rfl
  | suspended => simp [normalPhase] at h
  | raisedError m => simp [normalPhase] at h

/-- Every state reached from `start` is a normal phase. -/
theorem callStep_iterate_normal (s : ProcState) (k : Nat) :
    normalPhase (callStep^[k] (CallPhase.start, s)).1 = true := by
  induction k with
  | zero => rfl
  | succ n ih =>
      rw [Function.iterate_succ_apply']
      exact callStep_normal _ _ ih

/-- The phase is the suspended phase. -/
def isSuspended : CallPhase → Bool
  | .suspended => true
  | _ => false

/-- The phase is an error phase. -/
def isRaisedError : CallPhase → Bool
  | .raisedError _ => true
  | _ => false

/-- A normal phase is not suspended. -/
theorem normal_not_suspended (p : CallPhase) (h : normalPhase p = true) :
    isSuspended p = false := by
  cases p <;> simp_all [normalPhase, isSuspended]

/-- A normal phase is not an error phase. -/
theorem normal_not_raisedError (p : CallPhase) (h : normalPhase p = true) :
    isRaisedError p = false := by
  cases p <;> simp_all [normalPhase, isRaisedError]

/-- The `done` phase is absorbing: once returned, nothing further happens. -/
theorem callStep_done_absorbing (m : Nat) (r : Ptr) (t : ProcState) :
    callStep^[m] (CallPhase.done r, t) = (CallPhase.done r, t) := by
  induction m with
  | zero => rfl
  | succ k ih => rw [Function.iterate_succ_apply]; exact ih

/-- Every call completes in exactly two steps, returning the reference and
post-state of `tree_sitter_swift`. -/
theorem callStep_two (s : ProcState) :
    callStep^[2] (CallPhase.start, s) =
      (CallPhase.done (tree_sitter_swift s).1, (tree_sitter_swift s).2) := by
  cases s with
  | mk slot mem => cases slot <;> rfl

/-- C8: no runtime error is modelled at this boundary: no execution step of
a call ever reaches an error phase, and the call returns normally (in two
steps) carrying a valid language-description reference. -/
theorem tree_sitter_swift_no_runtime_error (s : ProcState) (k : Nat) :
    isRaisedError (callStep^[k] (CallPhase.start, s)).1 = false ∧
    callStep^[2] (CallPhase.start, s) =
      (CallPhase.done (tree_sitter_swift s).1, (tree_sitter_swift s).2) ∧
    (deref (tree_sitter_swift s).2 (tree_sitter_swift s).1).isSome = true := by
  refine ⟨normal_not_raisedError _ (callStep_iterate_normal s k), callStep_two s, ?_⟩
  cases s with
  | mk slot mem => cases slot <;> rfl

/-- Witness for C8: a concrete five-step execution from a fresh state never
errors. -/
theorem tree_sitter_swift_no_runtime_error_witness :
    isRaisedError (callStep^[5] (CallPhase.start, (⟨none, []⟩ : ProcState))).1 = false :=
  (tree_sitter_swift_no_runtime_error ⟨none, []⟩ 5).1

/-- C9: every call terminates in constant time and never suspends: after any
number `n ≥ 2` of steps (a bound independent of the state) the execution has
returned, with the value and post-state of `tree_sitter_swift`, and no step
of the execution is ever in the suspended phase. -/
theorem tree_sitter_swift_terminates (s : ProcState) (n k : Nat) (h : 2 ≤ n) :
    callStep^[n] (CallPhase.start, s) =
      (CallPhase.done (tree_sitter_swift s).1, (tree_sitter_swift s).2) ∧
    isSuspended (callStep^[k] (CallPhase.start, s)).1 = false := by
  obtain ⟨m, rfl⟩ := Nat.exists_eq_add_of_le h
  constructor
  · rw [Nat.add_comm, Function.iterate_add_apply, callStep_two s,
      callStep_done_absorbing]
  · exact normal_not_suspended _ (callStep_iterate_normal s k)

/-- Witness for C9: from a concrete uninitialized state, two steps reach the
returned phase with the reference of `tree_sitter_swift`. -/
theorem tree_sitter_swift_terminates_witness :
    2 ≤ 2 ∧
    callStep^[2] (CallPhase.start, (⟨none, [3]⟩ : ProcState)) =
      (CallPhase.done (tree_sitter_swift ⟨none, [3]⟩).1,
        (tree_sitter_swift ⟨none, [3]⟩).2) :=
  ⟨by decide, (tree_sitter_swift_terminates ⟨none, [3]⟩ 2 0 (by decide)).1⟩
